import Mathlib

/-!
Verification development for the WhatsApp phone-update batch tool.

The TypeScript sources are shallowly embedded here:
* `src-ts/phoneNormaliser.ts`  → `PhoneFormat`, `NormalisedPhone`, `normalise`
* `src-ts/infrastructure.ts`   → `PatientResource`, `applyPhone`, `updateMetaData`,
                                 `parseDate`, row sorting, `UpdateReporter` counters
* `src-ts/updateService.ts`    → `step`, `runService`

Strings are modelled as `List Char`.  JavaScript `trim` is modelled over the
ASCII whitespace characters (the inputs of interest contain no exotic Unicode
whitespace).  Mutation is modelled functionally: each mutating operation
returns the new value of the object it mutates.
-/

namespace WhatsappSync

/-! ## Phone normaliser (src-ts/phoneNormaliser.ts) -/

inductive PhoneFormat where
  | e164   : PhoneFormat
  | local0 : PhoneFormat
deriving DecidableEq

structure NormalisedPhone where
  raw : List Char
  canonical : Option (List Char)
  valid : Bool
  reason : Option String
deriving DecidableEq

/-- JS `String.prototype.trim` whitespace test, restricted to ASCII whitespace. -/
def isJsSpace (c : Char) : Bool :=
  c == ' ' || c == '\t' || c == '\n' || c == '\r' || c == '\x0b' || c == '\x0c'

def trimList (l : List Char) : List Char :=
  ((l.dropWhile isJsSpace).reverse.dropWhile isJsSpace).reverse

/-- Characters kept by `raw.replace(/[^+0-9]/g, "")`. -/
def keepPhoneChar (c : Char) : Bool :=
  c == '+' || c.isDigit

/-- `/^\d+$/.test s`: nonempty and all ASCII digits. -/
def allDigits1 (l : List Char) : Bool :=
  !l.isEmpty && l.all (fun c => c.isDigit)

/-- `s.startsWith p` on char lists. -/
def startsWithL : List Char → List Char → Bool
  | [], _ => true
  | _ :: _, [] => false
  | p :: ps, c :: cs => p == c && startsWithL ps cs

def MIN_LEN : Nat := 10
def MAX_LEN : Nat := 15

def build (raw : List Char) (canonical : Option (List Char)) (valid : Bool)
    (reason : Option String) : NormalisedPhone :=
  ⟨raw, canonical, valid, reason⟩

/-- Step 1 of `normalise`: the prefix-classification ladder producing the
internal `+62…` candidate or an early-return rejection reason. -/
def classifyStage (cleaned : List Char) : Except String (List Char) :=
  if startsWithL ['+', '6', '2'] cleaned then
    if allDigits1 (cleaned.drop 1) then Except.ok ('+' :: cleaned.drop 1)
    else Except.error "non_digit"
  else if startsWithL ['6', '2'] cleaned then
    if allDigits1 (cleaned.drop 2) then Except.ok (['+', '6', '2'] ++ cleaned.drop 2)
    else Except.error "non_digit"
  else if startsWithL ['0'] cleaned then
    if allDigits1 (cleaned.drop 1) then Except.ok (['+', '6', '2'] ++ cleaned.drop 1)
    else Except.error "non_digit"
  else
    if !(allDigits1 cleaned) then Except.error "non_digit"
    else if 9 ≤ cleaned.length ∧ cleaned.length ≤ 13 then Except.ok (['+', '6', '2'] ++ cleaned)
    else Except.error "length"

/-- Lines 34–36 of the source: strip everything but `+` and digits, then
collapse a run of leading `+` into a single one. -/
def cleanPhone (raw : List Char) : List Char :=
  if startsWithL ['+'] (raw.filter keepPhoneChar) then
    '+' :: (raw.filter keepPhoneChar).dropWhile (fun c => c == '+')
  else raw.filter keepPhoneChar

/-- `PhoneNormalizer.normalise` from `src-ts/phoneNormaliser.ts`
(`digitsCount = canonical.length - 1`). -/
def normalise (format : PhoneFormat) (rawInput : List Char) : NormalisedPhone :=
  if (trimList rawInput).isEmpty then build (trimList rawInput) none false (some "empty")
  else
    match classifyStage (cleanPhone (trimList rawInput)) with
    | Except.error r => build (trimList rawInput) none false (some r)
    | Except.ok canonical =>
      if !(startsWithL ['+', '6', '2'] canonical) then
        build (trimList rawInput) none false (some "bad_prefix")
      else if canonical.length - 1 < MIN_LEN ∨ MAX_LEN < canonical.length - 1 then
        build (trimList rawInput) none false (some "length")
      else
        build (trimList rawInput)
          (some (if format = PhoneFormat.local0 then '0' :: canonical.drop 3 else canonical))
          true none

/-! ## Patient data model (src-ts/domain.ts) -/

structure PatientIdentifier where
  system : String
  value : String
deriving DecidableEq

structure PatientTelecom where
  system : String
  use : Option String
  value : List Char
  rank : Option Nat
deriving DecidableEq

structure PatientMeta where
  versionId : Option (List Char)
  lastUpdated : Option String
deriving DecidableEq

/-- `PatientResource`; `extra` models the open extension fields `[k: string]`,
which the code only passes through.  An absent `telecom` array is modelled as
`[]` (the code lazily initialises it to `[]` before any read). -/
structure PatientResource where
  id : String
  identifier : List PatientIdentifier
  telecom : List PatientTelecom
  meta : Option PatientMeta
  extra : List (String × String)
deriving DecidableEq

def NIK_SYSTEM : String := "https://fhir.kemkes.go.id/id/nik"

/-! ## Repository and metadata update (src-ts/infrastructure.ts) -/

/-- The predicate of `telecom.find((t) => t.system === "phone" && t.use === "mobile")`. -/
def isMobilePhone (t : PatientTelecom) : Bool :=
  t.system == "phone" && t.use == some "mobile"

/-- In-place mutation of the first element satisfying `p`, modelled functionally. -/
def updateFirst (p : α → Bool) (f : α → α) : List α → List α
  | [] => []
  | t :: ts => if p t then f t :: ts else t :: updateFirst p f ts

/-- `parseInt(s, 10)` on an all-digit string (JS float precision is irrelevant
for the short version tags the program manipulates). -/
def digitsToNat (l : List Char) : Nat :=
  l.foldl (fun acc c => acc * 10 + (c.toNat - '0'.toNat)) 0

/-- `n.toString()` in base 10. -/
def natToDigits (n : Nat) : List Char :=
  Nat.toDigits 10 n

/-- `s.padStart(n, c)`. -/
def padStartL (n : Nat) (c : Char) (l : List Char) : List Char :=
  List.replicate (n - l.length) c ++ l

/-- `(vid || "v000") + "-updated"`: the fallback branch of `updateMetaData`
(`undefined` and the empty string are both falsy). -/
def fallbackTag (vid : Option (List Char)) : List Char :=
  (match vid with
   | some l => if l.isEmpty then ['v', '0', '0', '0'] else l
   | none => ['v', '0', '0', '0']) ++ ['-', 'u', 'p', 'd', 'a', 't', 'e', 'd']

/-- `updateMetaData` from `src-ts/infrastructure.ts`.  The fresh timestamp
produced by `buildLastUpdatedTimestamp()` (wall clock + random filler) is
passed in as the opaque parameter `now`. -/
def updateMetaData (now : String) (meta : Option PatientMeta) : PatientMeta :=
  let m0 := meta.getD ⟨none, none⟩
  let newVid : List Char :=
    match m0.versionId with
    | some ('v' :: suffix) =>
      if allDigits1 suffix then
        'v' :: padStartL 3 '0' (natToDigits (digitsToNat suffix + 1))
      else fallbackTag m0.versionId
    | _ => fallbackTag m0.versionId
  { versionId := some newVid, lastUpdated := some now }

/-- `InMemoryPatientRepository.applyPhone`, modelled functionally: returns the
new state of the patient together with the `changed` flag. -/
def applyPhone (now : String) (patient : PatientResource) (phone : List Char) :
    PatientResource × Bool :=
  match patient.telecom.find? isMobilePhone with
  | some existing =>
    if existing.value = phone then (patient, false)
    else
      ({ patient with
          telecom := updateFirst isMobilePhone
            (fun t => { t with value := phone, rank := some 1 }) patient.telecom,
          meta := some (updateMetaData now patient.meta) }, true)
  | none =>
    ({ patient with
        telecom := patient.telecom ++ [⟨"phone", some "mobile", phone, some 1⟩],
        meta := some (updateMetaData now patient.meta) }, true)

/-- The stored WhatsApp number of a record: value of the first
`system=phone, use=mobile` contact channel. -/
def mobileValue (p : PatientResource) : Option (List Char) :=
  (p.telecom.find? isMobilePhone).map (fun t => t.value)

/-! ## Sheet rows, date parsing and sorting (src-ts/infrastructure.ts, CsvSheetSource) -/

structure SheetRow where
  lastUpdatedDate : List Char
  nik : String
  name : String
  rawPhone : List Char
deriving DecidableEq

/-- Days since 1970-01-01 of a proleptic-Gregorian civil date with
`m ∈ [1,12]` and arbitrary integer day (day overflow rolls over exactly as in
the timestamp arithmetic of JS `Date.UTC`). -/
def daysFromCivil (y m d : Int) : Int :=
  let y' := y - (if m ≤ 2 then 1 else 0)
  let era := Int.fdiv y' 400
  let yoe := y' - era * 400
  let doy := Int.fdiv (153 * (m + (if 2 < m then -3 else 9)) + 2) 5 + d - 1
  let doe := yoe * 365 + Int.fdiv yoe 4 - Int.fdiv yoe 100 + doy
  era * 146097 + doe - 719468

/-- JS `Date.UTC(year, monthIndex, day)` in milliseconds: months outside
`[0,11]` roll over into adjacent years, years `0..99` map to `1900+year`. -/
def dateUTC (year monthIndex day : Int) : Int :=
  let y0 := if 0 ≤ year ∧ year ≤ 99 then year + 1900 else year
  let y := y0 + Int.fdiv monthIndex 12
  let m := Int.emod monthIndex 12
  daysFromCivil y (m + 1) day * 86400000

def digit2 (a b : Char) : Int :=
  ((a.toNat - '0'.toNat) * 10 + (b.toNat - '0'.toNat) : Nat)

def digit4 (a b c d : Char) : Int :=
  ((((a.toNat - '0'.toNat) * 10 + (b.toNat - '0'.toNat)) * 10 + (c.toNat - '0'.toNat)) * 10
    + (d.toNat - '0'.toNat) : Nat)

def isDateSep (c : Char) : Bool := c == '/' || c == '-'

/-- The date-shape match (two digits, separator, two digits, separator, four
digits, where the separator is a slash or a dash) plus `Date.UTC` of the
captured `DD`, `MM-1`, `YYYY` components; `none` when the shape fails.
(`Date.UTC` never returns `NaN` for in-range numeric components, so the
`isNaN` fallback of the source is unreachable.) -/
def parseDateOpt (l : List Char) : Option Int :=
  match l with
  | [d1, d2, s1, m1, m2, s2, y1, y2, y3, y4] =>
    if d1.isDigit && d2.isDigit && isDateSep s1 && m1.isDigit && m2.isDigit &&
        isDateSep s2 && y1.isDigit && y2.isDigit && y3.isDigit && y4.isDigit then
      some (dateUTC (digit4 y1 y2 y3 y4) (digit2 m1 m2 - 1) (digit2 d1 d2))
    else none
  | _ => none

/-- `parseDate` of `CsvSheetSource.loadRows`: unparsable dates become `0`. -/
def parseDate (l : List Char) : Int :=
  (parseDateOpt l).getD 0

/-- Sort key comparison of `rows.sort((a, b) => parseDate(a…) - parseDate(b…))`. -/
def rowLE (a b : SheetRow) : Prop :=
  parseDate a.lastUpdatedDate ≤ parseDate b.lastUpdatedDate

instance : DecidableRel rowLE := fun a b =>
  inferInstanceAs (Decidable (parseDate a.lastUpdatedDate ≤ parseDate b.lastUpdatedDate))

instance : IsTotal SheetRow rowLE :=
  ⟨fun a b => Int.le_total (parseDate a.lastUpdatedDate) (parseDate b.lastUpdatedDate)⟩

instance : IsTrans SheetRow rowLE :=
  ⟨fun _ _ _ hab hbc => le_trans hab hbc⟩

/-- The stable ascending sort of `CsvSheetSource.loadRows` (JS `Array.sort`
is stable; a stable sort by a fixed key is unique, so insertion sort models
it exactly). -/
def sortRows (rows : List SheetRow) : List SheetRow :=
  List.insertionSort rowLE rows

/-! ## Reporter counters and the reconciliation loop
(src-ts/infrastructure.ts UpdateReporter, src-ts/updateService.ts) -/

structure UpdateStats where
  totalRows : Nat
  validUpdated : Nat
  validUnchanged : Nat
  invalidFormat : Nat
  missingPatient : Nat
deriving DecidableEq

def initStats : UpdateStats := ⟨0, 0, 0, 0, 0⟩

/-- `UpdateReporter.recordInvalid` (the audit list is not modelled; only the
counters matter to the claims). -/
def recordInvalid (s : UpdateStats) (reason : String) : UpdateStats :=
  if reason == "missing_patient" then { s with missingPatient := s.missingPatient + 1 }
  else { s with invalidFormat := s.invalidFormat + 1 }

/-- Does the patient carry a NIK identifier with this value
(`ident.system === NIK_SYSTEM`)? -/
def hasNik (p : PatientResource) (nik : String) : Bool :=
  p.identifier.any (fun i => i.system == NIK_SYSTEM && i.value == nik)

/-- `findByNik`: the repository `Map` is filled patient by patient with
overwrites, so a NIK resolves to the LAST patient carrying it. -/
def lookupByNik : List PatientResource → String → Option PatientResource
  | [], _ => none
  | p :: ps, nik =>
    match lookupByNik ps nik with
    | some q => some q
    | none => if hasNik p nik then some p else none

/-- `findByNik` followed by `applyPhone` on the found (last-matching) patient;
`none` when no patient carries the NIK.  `applyPhone` never changes
`identifier`, so recomputing the lookup on the evolved list agrees with the
`Map` the constructor built once. -/
def applyAtNik (now : String) (phone : List Char) :
    List PatientResource → String → Option (List PatientResource × Bool)
  | [], _ => none
  | p :: ps, nik =>
    match applyAtNik now phone ps nik with
    | some (ps', changed) => some (p :: ps', changed)
    | none =>
      if hasNik p nik then
        let r := applyPhone now p phone
        some (r.1 :: ps, r.2)
      else none

structure RunState where
  patients : List PatientResource
  stats : UpdateStats
deriving DecidableEq

/-- One iteration of the `for` loop in `UpdateService.run`. -/
def step (fmt : PhoneFormat) (now : String) (st : RunState) (row : SheetRow) : RunState :=
  let stats1 := { st.stats with totalRows := st.stats.totalRows + 1 }
  let norm := normalise fmt row.rawPhone
  match norm.canonical with
  | none => ⟨st.patients, recordInvalid stats1 (norm.reason.getD "invalid")⟩
  | some canon =>
    if norm.valid = false then ⟨st.patients, recordInvalid stats1 (norm.reason.getD "invalid")⟩
    else
      match applyAtNik now canon st.patients row.nik with
      | none => ⟨st.patients, recordInvalid stats1 "missing_patient"⟩
      | some (ps', changed) =>
        ⟨ps', if changed then { stats1 with validUpdated := stats1.validUpdated + 1 }
              else { stats1 with validUnchanged := stats1.validUnchanged + 1 }⟩

/-- `UpdateService.run` composed with the sorting done in
`CsvSheetSource.loadRows`: sort the rows, then fold the loop body over them.
(`writeOutputs` does I/O only and is not modelled.) -/
def runService (fmt : PhoneFormat) (now : String) (patients : List PatientResource)
    (rows : List SheetRow) : RunState :=
  (sortRows rows).foldl (step fmt now) ⟨patients, initStats⟩

/-! ## Concrete sample data used by witnesses and counterexamples -/

def phoneA : List Char := "+6281234567890".data

def phoneB : List Char := "+6285678901234".data

def sampleChannel : PatientTelecom := ⟨"phone", some "mobile", phoneA, some 1⟩

def samplePatient : PatientResource :=
  { id := "patient-001"
    identifier := [⟨NIK_SYSTEM, "3171044203920001"⟩]
    telecom := [⟨"home", some "home", "0211234".data, none⟩, sampleChannel]
    meta := some ⟨some "v001".data, none⟩
    extra := [("resourceType", "Patient")] }

/-- Modelled from the claim wording (C7): an optional leading `'+'` followed
by 10 to 15 digits inclusive and nothing else. -/
def claimPhoneShape (l : List Char) : Prop :=
  (if l.head? = some '+' then l.tail else l).all (fun c => c.isDigit) = true ∧
  10 ≤ (if l.head? = some '+' then l.tail else l).length ∧
  (if l.head? = some '+' then l.tail else l).length ≤ 15

instance (l : List Char) : Decidable (claimPhoneShape l) := by
  unfold claimPhoneShape; infer_instance

def c5Patient : PatientResource :=
  { id := "patient-c5"
    identifier := [⟨NIK_SYSTEM, "3578106207900002"⟩]
    telecom := []
    meta := some ⟨some "v0010".data, none⟩
    extra := [] }

def c5bPatient : PatientResource :=
  { id := "patient-c5b"
    identifier := [⟨NIK_SYSTEM, "3578106207900002"⟩]
    telecom := []
    meta := some ⟨some "v010".data, none⟩
    extra := [] }

def c5cPatient : PatientResource :=
  { id := "patient-c5c"
    identifier := [⟨NIK_SYSTEM, "3578106207900002"⟩]
    telecom := []
    meta := none
    extra := [] }

/-- Sum of the four outcome counters. -/
def statSum (s : UpdateStats) : Nat :=
  s.validUpdated + s.validUnchanged + s.invalidFormat + s.missingPatient

def c3Patient : PatientResource :=
  { id := "patient-c3"
    identifier := [⟨NIK_SYSTEM, "3171044203920001"⟩]
    telecom := []
    meta := some ⟨some "v001".data, none⟩
    extra := [] }

def c3RowOld : SheetRow :=
  ⟨"01-01-2020".data, "3171044203920001", "NAME", "085678901234".data⟩

def c3RowNew : SheetRow :=
  ⟨"02-01-2020".data, "3171044203920001", "NAME", "081234567890".data⟩

def c6BadRow : SheetRow := ⟨"zz-zz-2020".data, "1", "N", "081234567890".data⟩

def c6OldRow : SheetRow := ⟨"01-01-1960".data, "2", "N", "081234567890".data⟩

/-! ## Concrete evaluations checking the embedding against the source's tests -/

example : (normalise PhoneFormat.e164 "+62 812-3456-7890".data).canonical
    = some "+6281234567890".data := by decide

example : (normalise PhoneFormat.local0 "+62 812-3456-7890".data).canonical
    = some "081234567890".data := by decide

example : (normalise PhoneFormat.e164 "62abc123".data).reason = some "length" := by decide

example : (normalise PhoneFormat.e164 "890123".data).reason = some "length" := by decide

example : (normalise PhoneFormat.local0 "012345678".data).canonical
    = some "012345678".data := by decide

example : (updateMetaData "t" (some ⟨some "v010".data, none⟩)).versionId
    = some "v011".data := by decide

example : (updateMetaData "t" (some ⟨some "v0010".data, none⟩)).versionId
    = some "v011".data := by decide

example : (updateMetaData "t" (some ⟨some "v".data, none⟩)).versionId
    = some "v-updated".data := by decide

example : (updateMetaData "t" none).versionId = some "v000-updated".data := by decide

example : (updateMetaData "t" (some ⟨some "v99".data, none⟩)).versionId
    = some "v100".data := by decide

example : parseDate "23-09-2025".data = 1758585600000 := by decide

example : parseDate "01-01-1970".data = 0 := by decide

example : parseDate "01-01-1960".data = -315619200000 := by decide

example : parseDate "garbage".data = 0 := by decide

/-! ## Helper lemmas -/

theorem startsWithL_true : ∀ (p s : List Char), startsWithL p s = true ↔ ∃ t, s = p ++ t := by
  intro p
  induction p with
  | nil => intro s; simp [startsWithL]
  | cons a ps ih =>
    intro s
    cases s with
    | nil => simp [startsWithL]
    | cons c cs =>
      simp only [startsWithL, Bool.and_eq_true, beq_iff_eq, ih, List.cons_append,
        List.cons.injEq]
      constructor
      · rintro ⟨rfl, t, rfl⟩; exact ⟨t, rfl, rfl⟩
      · rintro ⟨t, rfl, rfl⟩; exact ⟨rfl, t, rfl⟩

theorem updateFirst_find? {α : Type} (p : α → Bool) (f : α → α)
    (hf : ∀ a, p a = true → p (f a) = true) :
    ∀ (l : List α) (t : α), l.find? p = some t →
      (updateFirst p f l).find? p = some (f t) := by
  intro l
  induction l with
  | nil => intro t h; simp [List.find?] at h
  | cons x xs ih =>
    intro t h
    by_cases hx : p x = true
    · rw [List.find?_cons_of_pos _ hx] at h
      cases h
      simp [updateFirst, hx, List.find?_cons_of_pos _ (hf _ hx)]
    · rw [List.find?_cons_of_neg _ (by simpa using hx)] at h
      have hx' : p x = false := by simpa using hx
      simp only [updateFirst, hx', Bool.false_eq_true, if_false]
      rw [List.find?_cons_of_neg _ (by simpa using hx)]
      exact ih t h

theorem updateFirst_filter {α : Type} (p : α → Bool) (f : α → α)
    (hf : ∀ a, p a = true → p (f a) = true) :
    ∀ l : List α, (updateFirst p f l).filter (fun a => !p a) = l.filter (fun a => !p a) := by
  intro l
  induction l with
  | nil => rfl
  | cons x xs ih =>
    by_cases hx : p x = true
    · simp [updateFirst, hx, List.filter_cons, hf _ hx]
    · have hx' : p x = false := by simpa using hx
      simp [updateFirst, hx', List.filter_cons, ih]

theorem updateFirst_countP {α : Type} (p : α → Bool) (f : α → α)
    (hf : ∀ a, p a = true → p (f a) = true) :
    ∀ l : List α, (updateFirst p f l).countP p = l.countP p := by
  intro l
  induction l with
  | nil => rfl
  | cons x xs ih =>
    by_cases hx : p x = true
    · simp [updateFirst, hx, List.countP_cons, hf _ hx]
    · have hx' : p x = false := by simpa using hx
      simp [updateFirst, hx', List.countP_cons, ih]

theorem find?_append_single {α : Type} (p : α → Bool) (x : α) :
    ∀ l : List α, l.find? p = none →
      (l ++ [x]).find? p = if p x then some x else none := by
  intro l
  induction l with
  | nil => intro _; cases h : p x <;> simp [List.find?, h]
  | cons y ys ih =>
    intro h
    rw [List.find?_cons] at h
    split at h
    · exact absurd h (by simp)
    · rw [List.cons_append, List.find?_cons]
      split
      · simp_all
      · exact ih h

/-- `applyPhone` never changes `id`, `identifier` or the open extension
fields. -/
theorem applyPhone_frame_fields (now : String) (p : PatientResource) (phone : List Char) :
    (applyPhone now p phone).1.id = p.id ∧
    (applyPhone now p phone).1.identifier = p.identifier ∧
    (applyPhone now p phone).1.extra = p.extra := by
  unfold applyPhone
  cases p.telecom.find? isMobilePhone with
  | none => exact ⟨rfl, rfl, rfl⟩
  | some existing =>
    by_cases h : existing.value = phone <;> simp [h]

/-- The telecom rewrite of a mutating `applyPhone` keeps the mobile-phone
predicate true on the rewritten channel. -/
theorem isMobilePhone_override (phone : List Char) :
    ∀ t : PatientTelecom, isMobilePhone t = true →
      isMobilePhone { t with value := phone, rank := some 1 } = true := by
  intro t h
  simpa [isMobilePhone] using h

/-- After any `applyPhone now p phone` call the stored WhatsApp number is
`phone`, whether or not the call mutated. -/
theorem applyPhone_mobileValue (now : String) (p : PatientResource) (phone : List Char) :
    mobileValue (applyPhone now p phone).1 = some phone := by
  unfold applyPhone
  cases hfind : p.telecom.find? isMobilePhone with
  | none =>
    have : isMobilePhone ⟨"phone", some "mobile", phone, some 1⟩ = true := by
      simp [isMobilePhone]
    simp [mobileValue, find?_append_single _ _ _ hfind, this]
  | some existing =>
    by_cases h : existing.value = phone
    · simp only [h, if_true]
      simp [mobileValue, hfind, h]
    · simp only [h, if_false]
      simp [mobileValue,
        updateFirst_find? isMobilePhone _ (isMobilePhone_override phone) _ _ hfind]

/-! ## Claim theorems -/

/-- C2: `applyPhone` is idempotent: when the record already stores exactly the
canonical value on its phone/mobile channel the call returns `false` and
leaves the record (metadata included) untouched, and therefore applying the
same value twice always returns `false` the second time with no further
change. -/
theorem C2_applyPhone_idempotent :
    (∀ (now : String) (p : PatientResource) (phone : List Char) (t : PatientTelecom),
        p.telecom.find? isMobilePhone = some t → t.value = phone →
        applyPhone now p phone = (p, false))
    ∧ ∀ (now now' : String) (p : PatientResource) (phone : List Char),
        applyPhone now' (applyPhone now p phone).1 phone = ((applyPhone now p phone).1, false) := by
  have part1 : ∀ (now : String) (p : PatientResource) (phone : List Char) (t : PatientTelecom),
      p.telecom.find? isMobilePhone = some t → t.value = phone →
      applyPhone now p phone = (p, false) := by
    intro now p phone t hfind hval
    unfold applyPhone
    rw [hfind]
    simp [hval]
  refine ⟨part1, ?_⟩
  intro now now' p phone
  have hmv := applyPhone_mobileValue now p phone
  unfold mobileValue at hmv
  rcases Option.map_eq_some'.mp hmv with ⟨t, hfind, hval⟩
  exact part1 now' _ phone t hfind hval

/-- C2 witness: re-applying the already-stored value on a concrete patient is
a no-op returning `false`. -/
theorem C2_witness : applyPhone "ts0" samplePatient phoneA = (samplePatient, false) :=
  C2_applyPhone_idempotent.1 "ts0" samplePatient phoneA sampleChannel (by decide) (by decide)

/-- C9: `applyPhone` only ever touches the single phone/mobile channel and the
metadata: `id`, the identifiers and the open extension fields are unchanged,
every other telecom entry is preserved verbatim in order, and a record with at
most one phone/mobile channel keeps at most one. -/
theorem C9_applyPhone_frame (now : String) (p : PatientResource) (phone : List Char) :
    (applyPhone now p phone).1.id = p.id ∧
    (applyPhone now p phone).1.identifier = p.identifier ∧
    (applyPhone now p phone).1.extra = p.extra ∧
    ((applyPhone now p phone).1.telecom.filter (fun t => !isMobilePhone t)
      = p.telecom.filter (fun t => !isMobilePhone t)) ∧
    (p.telecom.countP isMobilePhone ≤ 1 →
      (applyPhone now p phone).1.telecom.countP isMobilePhone ≤ 1) := by
  obtain ⟨h1, h2, h3⟩ := applyPhone_frame_fields now p phone
  refine ⟨h1, h2, h3, ?_, ?_⟩
  · unfold applyPhone
    cases hfind : p.telecom.find? isMobilePhone with
    | none =>
      have : isMobilePhone ⟨"phone", some "mobile", phone, some 1⟩ = true := by
        simp [isMobilePhone]
      simp [List.filter_append, this]
    | some existing =>
      by_cases h : existing.value = phone
      · simp [h]
      · simp [h, updateFirst_filter isMobilePhone _ (isMobilePhone_override phone)]
  · intro hle
    unfold applyPhone
    cases hfind : p.telecom.find? isMobilePhone with
    | none =>
      have hzero : p.telecom.countP isMobilePhone = 0 := by
        rw [List.countP_eq_zero]
        intro a ha
        have := List.find?_eq_none.mp hfind a ha
        simpa using this
      have : isMobilePhone ⟨"phone", some "mobile", phone, some 1⟩ = true := by
        simp [isMobilePhone]
      simp [List.countP_append, hzero, this]
    | some existing =>
      by_cases h : existing.value = phone
      · simpa [h] using hle
      · simpa [h, updateFirst_countP isMobilePhone _ (isMobilePhone_override phone)] using hle

/-- C9 witness: a concrete mutating call preserves the other channels, the
identifiers and the extension fields, and keeps a single phone/mobile
channel. -/
theorem C9_witness :
    (applyPhone "ts0" samplePatient phoneB).1.id = samplePatient.id ∧
    (applyPhone "ts0" samplePatient phoneB).1.identifier = samplePatient.identifier ∧
    (applyPhone "ts0" samplePatient phoneB).1.extra = samplePatient.extra ∧
    ((applyPhone "ts0" samplePatient phoneB).1.telecom.filter (fun t => !isMobilePhone t)
      = samplePatient.telecom.filter (fun t => !isMobilePhone t)) ∧
    (applyPhone "ts0" samplePatient phoneB).1.telecom.countP isMobilePhone ≤ 1 := by
  obtain ⟨h1, h2, h3, h4, h5⟩ := C9_applyPhone_frame "ts0" samplePatient phoneB
  exact ⟨h1, h2, h3, h4, h5 (by decide)⟩

/-! ## Structure of the normaliser's results -/

theorem allDigits1_all {l : List Char} (h : allDigits1 l = true) :
    l.all (fun c => c.isDigit) = true := by
  unfold allDigits1 at h
  exact (Bool.and_eq_true _ _).mp h |>.2

/-- Every successful classification produces `'+'` followed by a nonempty
all-digit tail that starts with `6`, `2`. -/
theorem classifyStage_ok (cleaned c : List Char) (h : classifyStage cleaned = Except.ok c) :
    ∃ t, c = '+' :: '6' :: '2' :: t ∧ (('6' :: '2' :: t).all (fun c => c.isDigit)) = true := by
  unfold classifyStage at h
  split at h
  · next hpre =>
    obtain ⟨u, rfl⟩ := (startsWithL_true _ _).mp hpre
    split at h
    · next hdig =>
      cases h
      exact ⟨u, rfl, allDigits1_all hdig⟩
    · cases h
  · split at h
    · next hpre =>
      obtain ⟨u, rfl⟩ := (startsWithL_true _ _).mp hpre
      split at h
      · next hdig =>
        cases h
        refine ⟨u, rfl, ?_⟩
        simp only [List.all_cons, Bool.and_eq_true]
        exact ⟨by decide, by decide, by simpa using allDigits1_all hdig⟩
      · cases h
    · split at h
      · next hpre =>
        obtain ⟨u, rfl⟩ := (startsWithL_true _ _).mp hpre
        split at h
        · next hdig =>
          cases h
          refine ⟨u, rfl, ?_⟩
          simp only [List.all_cons, Bool.and_eq_true]
          exact ⟨by decide, by decide, by simpa using allDigits1_all hdig⟩
        · cases h
      · split at h
        · cases h
        · next hdig =>
          rw [Bool.not_eq_true', Bool.not_eq_false] at hdig
          split at h
          · cases h
            refine ⟨cleaned, rfl, ?_⟩
            simp only [List.all_cons, Bool.and_eq_true]
            exact ⟨by decide, by decide, allDigits1_all hdig⟩
          · cases h

/-- The classification stage only ever rejects with `non_digit` or `length`. -/
theorem classifyStage_error (cleaned : List Char) (r : String)
    (h : classifyStage cleaned = Except.error r) : r = "non_digit" ∨ r = "length" := by
  unfold classifyStage at h
  split at h
  · split at h
    · cases h
    · cases h; exact Or.inl rfl
  · split at h
    · split at h
      · cases h
      · cases h; exact Or.inl rfl
    · split at h
      · split at h
        · cases h
        · cases h; exact Or.inl rfl
      · split at h
        · cases h; exact Or.inl rfl
        · split at h
          · cases h
          · cases h; exact Or.inr rfl

/-- Structure of every valid normalisation result: internally the number is
`'+'` `'6'` `'2'` followed by a tail `t` of digits with `10 ≤ t.length + 2 ≤ 15`,
and the published canonical value is that string for `e164` or `'0' :: t` for
`local0`. -/
theorem normalise_valid_struct (fmt : PhoneFormat) (raw : List Char)
    (h : (normalise fmt raw).valid = true) :
    ∃ t : List Char, (('6' :: '2' :: t).all (fun c => c.isDigit)) = true ∧
      10 ≤ t.length + 2 ∧ t.length + 2 ≤ 15 ∧
      (normalise fmt raw).canonical
        = some (if fmt = PhoneFormat.local0 then '0' :: t else '+' :: '6' :: '2' :: t) := by
  unfold normalise at h ⊢
  split at h
  · simp [build] at h
  · next hne =>
    split at h
    · simp [build] at h
    · next canonical heq =>
      split at h
      · simp [build] at h
      · next hpre =>
        split at h
        · simp [build] at h
        · next hlen =>
          obtain ⟨t, ht, hdig⟩ := classifyStage_ok _ _ heq
          subst ht
          refine ⟨t, hdig, ?_, ?_, ?_⟩
          · have := (not_or.mp hlen).1
            simp only [MIN_LEN, not_lt, List.length_cons] at this
            omega
          · have := (not_or.mp hlen).2
            simp only [MAX_LEN, not_lt, List.length_cons] at this
            omega
          · simp only [if_neg hne, heq, if_neg hpre, if_neg hlen, build]
            simp [List.drop]

/-- C10: the normaliser can never report `bad_prefix`: every branch of the
classification stage yields a candidate beginning with `+62`, so the
defensive check is unreachable. -/
theorem C10_no_bad_prefix (fmt : PhoneFormat) (raw : List Char) :
    (normalise fmt raw).reason ≠ some "bad_prefix" := by
  unfold normalise
  split
  · simp [build]
  · split
    · next r heq =>
      rcases classifyStage_error _ _ heq with hr | hr <;> simp [build, hr]
    · next canonical heq =>
      obtain ⟨t, rfl, -⟩ := classifyStage_ok _ _ heq
      have hpre : startsWithL ['+', '6', '2'] ('+' :: '6' :: '2' :: t) = true :=
        (startsWithL_true _ _).mpr ⟨t, rfl⟩
      rw [hpre]
      simp only [Bool.not_true, Bool.false_eq_true, if_false]
      split <;> simp [build]

/-- C8: normalising `"+62 812-3456-7890"` yields `"+6281234567890"` in the
international format and `"081234567890"` in the national format, both
valid. -/
theorem C8_round_trip_by_format :
    (normalise PhoneFormat.e164 "+62 812-3456-7890".data).valid = true ∧
    (normalise PhoneFormat.e164 "+62 812-3456-7890".data).canonical
      = some "+6281234567890".data ∧
    (normalise PhoneFormat.local0 "+62 812-3456-7890".data).valid = true ∧
    (normalise PhoneFormat.local0 "+62 812-3456-7890".data).canonical
      = some "081234567890".data := by
  refine ⟨by decide, by decide, by decide, by decide⟩

/-- C4 counterexample: `"62abc123"` is rejected, but with reason `length`,
not `non_digit` — the cleaning step strips the letters before any digit test
runs, leaving `"62123"`, which is classified and then fails the length
check. -/
theorem C4_counterexample :
    (normalise PhoneFormat.e164 "62abc123".data).valid = false ∧
    (normalise PhoneFormat.e164 "62abc123".data).reason = some "length" ∧
    (normalise PhoneFormat.e164 "62abc123".data).reason ≠ some "non_digit" ∧
    (normalise PhoneFormat.local0 "62abc123".data).reason = some "length" := by
  refine ⟨by decide, by decide, by decide, by decide⟩

/-- C4 (amended): for either output format, `"890123"` is rejected with
reason `length`, and `"62abc123"` is also rejected with reason `length` (its
letters are stripped by the cleaning step, leaving the too-short `"62123"`). -/
theorem C4_rejection_cases (fmt : PhoneFormat) :
    (normalise fmt "890123".data).valid = false ∧
    (normalise fmt "890123".data).reason = some "length" ∧
    (normalise fmt "62abc123".data).valid = false ∧
    (normalise fmt "62abc123".data).reason = some "length" := by
  cases fmt <;> exact ⟨by decide, by decide, by decide, by decide⟩

/-- C7 counterexample: `"012345678"` normalises validly in the national
format to the 9-digit value `"012345678"`, which is shorter than the 10
digits the claim requires. -/
theorem C7_counterexample :
    (normalise PhoneFormat.local0 "012345678".data).valid = true ∧
    (normalise PhoneFormat.local0 "012345678".data).canonical = some "012345678".data ∧
    ¬ claimPhoneShape "012345678".data := by
  refine ⟨by decide, by decide, by decide⟩

/-- C7 (amended): every valid value is digits with at most a leading sign
character, but the length window depends on the format: `e164` values are
`'+'` followed by 10–15 digits, while `local0` values are `'0'` followed by
8–13 further digits (so 9–14 digits in total and no `'+'`). -/
theorem C7_valid_value_shape (fmt : PhoneFormat) (raw : List Char)
    (h : (normalise fmt raw).valid = true) :
    ∃ v, (normalise fmt raw).canonical = some v ∧
      (fmt = PhoneFormat.e164 →
        ∃ ds, v = '+' :: ds ∧ ds.all (fun c => c.isDigit) = true ∧
          10 ≤ ds.length ∧ ds.length ≤ 15) ∧
      (fmt = PhoneFormat.local0 →
        ∃ ds, v = '0' :: ds ∧ ds.all (fun c => c.isDigit) = true ∧
          8 ≤ ds.length ∧ ds.length ≤ 13) := by
  obtain ⟨t, hdig, hlo, hhi, hcan⟩ := normalise_valid_struct fmt raw h
  cases fmt with
  | e164 =>
    refine ⟨'+' :: '6' :: '2' :: t, by simpa using hcan, fun _ => ?_, by simp⟩
    exact ⟨'6' :: '2' :: t, rfl, hdig, by simp only [List.length_cons]; omega,
      by simp only [List.length_cons]; omega⟩
  | local0 =>
    refine ⟨'0' :: t, by simpa using hcan, by simp, fun _ => ?_⟩
    refine ⟨t, rfl, ?_, by omega, by omega⟩
    simp only [List.all_cons, Bool.and_eq_true] at hdig
    exact hdig.2.2

/-- C7 witness: the international normalisation of `"+62 812-3456-7890"` is
valid and its value has the `'+'` + digits shape. -/
theorem C7_witness :
    (normalise PhoneFormat.e164 "+62 812-3456-7890".data).valid = true ∧
    ∃ v, (normalise PhoneFormat.e164 "+62 812-3456-7890".data).canonical = some v ∧
      (PhoneFormat.e164 = PhoneFormat.e164 →
        ∃ ds, v = '+' :: ds ∧ ds.all (fun c => c.isDigit) = true ∧
          10 ≤ ds.length ∧ ds.length ≤ 15) ∧
      (PhoneFormat.e164 = PhoneFormat.local0 →
        ∃ ds, v = '0' :: ds ∧ ds.all (fun c => c.isDigit) = true ∧
          8 ≤ ds.length ∧ ds.length ≤ 13) :=
  ⟨by decide, C7_valid_value_shape PhoneFormat.e164 "+62 812-3456-7890".data (by decide)⟩

/-! ## Version-tag update on mutation (C5) -/

/-- A mutating `applyPhone` call installs `updateMetaData` output as the new
metadata. -/
theorem applyPhone_changed_meta (now : String) (p : PatientResource) (phone : List Char)
    (p' : PatientResource) (h : applyPhone now p phone = (p', true)) :
    p'.meta = some (updateMetaData now p.meta) := by
  unfold applyPhone at h
  split at h
  · split at h
    · simp at h
    · obtain ⟨rfl, -⟩ := Prod.mk.injEq .. ▸ And.intro (congrArg Prod.fst h) (congrArg Prod.snd h)
      rfl
  · obtain ⟨rfl, -⟩ := Prod.mk.injEq .. ▸ And.intro (congrArg Prod.fst h) (congrArg Prod.snd h)
    rfl

/-- C5 (amended): on every mutating `applyPhone` call, a version tag of shape
`v<digits>` has its numeric suffix incremented and zero-padded to width 3
(`padStart(3, "0")`), NOT to the original width; any other tag (including a
missing digits part) gets the `-updated` fallback marker appended, and a
missing tag is replaced by the fallback of the `v000` substitute
(`fallbackTag none`, i.e. `v000-updated`). -/
theorem C5_version_tag (now : String) (p : PatientResource) (phone : List Char)
    (p' : PatientResource) (h : applyPhone now p phone = (p', true)) :
    (∀ suffix, p.meta.bind PatientMeta.versionId = some ('v' :: suffix) →
      allDigits1 suffix = true →
      p'.meta.bind PatientMeta.versionId
        = some ('v' :: padStartL 3 '0' (natToDigits (digitsToNat suffix + 1))))
    ∧ (∀ vid, p.meta.bind PatientMeta.versionId = some vid →
      (∀ suffix, vid = 'v' :: suffix → allDigits1 suffix = false) →
      p'.meta.bind PatientMeta.versionId = some (fallbackTag (some vid)))
    ∧ (p.meta.bind PatientMeta.versionId = none →
      p'.meta.bind PatientMeta.versionId = some (fallbackTag none)) := by
  have hmeta := applyPhone_changed_meta now p phone p' h
  refine ⟨?_, ?_, ?_⟩
  · intro suffix hvid hdig
    rw [hmeta]
    cases hp : p.meta with
    | none => rw [hp] at hvid; simp at hvid
    | some m =>
      rw [hp] at hvid
      simp only [Option.some_bind] at hvid
      simp only [Option.some_bind, updateMetaData, Option.getD_some, hvid, hdig, if_true]
  · intro vid hvid hnot
    rw [hmeta]
    cases hp : p.meta with
    | none => rw [hp] at hvid; simp at hvid
    | some m =>
      rw [hp] at hvid
      simp only [Option.some_bind] at hvid
      simp only [Option.some_bind, updateMetaData, Option.getD_some, hvid]
      match vid, hnot with
      | [], _ => rfl
      | c :: cs, hnot =>
        by_cases hc : c = 'v'
        · subst hc
          simp [hnot cs rfl]
        · have : (match (some (c :: cs) : Option (List Char)) with
              | some ('v' :: suffix) =>
                if allDigits1 suffix = true then
                  'v' :: padStartL 3 '0' (natToDigits (digitsToNat suffix + 1))
                else fallbackTag (some (c :: cs))
              | _ => fallbackTag (some (c :: cs))) = fallbackTag (some (c :: cs)) := by
            split
            · next heq => cases heq; exact absurd rfl hc
            · rfl
          exact congrArg some this
  · intro hvid
    rw [hmeta]
    cases hp : p.meta with
    | none => rfl
    | some m =>
      rw [hp] at hvid
      simp only [Option.some_bind] at hvid
      simp only [Option.some_bind, updateMetaData, Option.getD_some, hvid]

/-- C5 counterexample: a mutating call on a patient whose tag is `v0010`
(numeric width 4) produces `v011`, not the re-padded-to-original-width
`v0011` the claim requires. -/
theorem C5_counterexample :
    (applyPhone "ts0" c5Patient phoneA).2 = true ∧
    (applyPhone "ts0" c5Patient phoneA).1.meta.bind PatientMeta.versionId
      = some "v011".data ∧
    (applyPhone "ts0" c5Patient phoneA).1.meta.bind PatientMeta.versionId
      ≠ some "v0011".data := by
  refine ⟨by decide, by decide, by decide⟩

/-- C5 witness: incrementing the concrete tag `v010` through a mutating
`applyPhone` call yields the padded successor tag, and a mutating call on a
patient with no metadata at all installs the fallback of the `v000`
substitute. -/
theorem C5_witness :
    ((applyPhone "ts0" c5bPatient phoneA).1.meta.bind PatientMeta.versionId
      = some ('v' :: padStartL 3 '0' (natToDigits (digitsToNat "010".data + 1))))
    ∧ (applyPhone "ts0" c5cPatient phoneA).1.meta.bind PatientMeta.versionId
      = some (fallbackTag none) :=
  ⟨(C5_version_tag "ts0" c5bPatient phoneA ((applyPhone "ts0" c5bPatient phoneA).1)
      (by decide)).1 "010".data (by decide) (by decide),
   (C5_version_tag "ts0" c5cPatient phoneA ((applyPhone "ts0" c5cPatient phoneA).1)
      (by decide)).2.2 (by decide)⟩

/-! ## Reporter counter accounting (C1, C6) -/

/-- Each loop iteration bumps `totalRows` once and exactly one outcome
counter once. -/
theorem step_counters (fmt : PhoneFormat) (now : String) (st : RunState) (row : SheetRow) :
    (step fmt now st row).stats.totalRows = st.stats.totalRows + 1 ∧
    statSum (step fmt now st row).stats = statSum st.stats + 1 := by
  simp only [step]
  split
  · unfold recordInvalid
    split <;> exact ⟨by simp, by simp [statSum]; try omega⟩
  · split
    · unfold recordInvalid
      split <;> exact ⟨by simp, by simp [statSum]; try omega⟩
    · split
      · unfold recordInvalid
        split <;> exact ⟨by simp, by simp [statSum]; try omega⟩
      · split <;> exact ⟨by simp, by simp [statSum]; try omega⟩

theorem foldl_step_sum (fmt : PhoneFormat) (now : String) :
    ∀ (rows : List SheetRow) (st : RunState),
      st.stats.totalRows = statSum st.stats →
      (rows.foldl (step fmt now) st).stats.totalRows
        = statSum (rows.foldl (step fmt now) st).stats := by
  intro rows
  induction rows with
  | nil => intro st h; exact h
  | cons r rs ih =>
    intro st h
    simp only [List.foldl_cons]
    refine ih _ ?_
    obtain ⟨h1, h2⟩ := step_counters fmt now st r
    rw [h1, h2, h]

theorem foldl_step_totalRows (fmt : PhoneFormat) (now : String) :
    ∀ (rows : List SheetRow) (st : RunState),
      (rows.foldl (step fmt now) st).stats.totalRows = st.stats.totalRows + rows.length := by
  intro rows
  induction rows with
  | nil => intro st; simp
  | cons r rs ih =>
    intro st
    simp only [List.foldl_cons, List.length_cons]
    rw [ih, (step_counters fmt now st r).1]
    omega

/-- C1: at the end of every run over any finite row sequence the reporter's
statistics satisfy
`totalRows = validUpdated + validUnchanged + invalidFormat + missingPatient`:
each row increments the total exactly once and exactly one outcome
counter. -/
theorem C1_sum_invariant (fmt : PhoneFormat) (now : String)
    (patients : List PatientResource) (rows : List SheetRow) :
    (runService fmt now patients rows).stats.totalRows
      = (runService fmt now patients rows).stats.validUpdated
        + (runService fmt now patients rows).stats.validUnchanged
        + (runService fmt now patients rows).stats.invalidFormat
        + (runService fmt now patients rows).stats.missingPatient := by
  have h := foldl_step_sum fmt now (sortRows rows) ⟨patients, initStats⟩
    (by simp [initStats, statSum])
  simpa [runService, statSum] using h

/-! ## Repository lookup/update interplay (C3) -/

theorem applyPhone_hasNik (now : String) (p : PatientResource) (phone : List Char)
    (nik : String) : hasNik (applyPhone now p phone).1 nik = hasNik p nik := by
  unfold hasNik
  rw [(applyPhone_frame_fields now p phone).2.1]

theorem applyAtNik_none_iff (now : String) (phone : List Char) :
    ∀ (ps : List PatientResource) (nik : String),
      applyAtNik now phone ps nik = none ↔ lookupByNik ps nik = none := by
  intro ps
  induction ps with
  | nil => intro nik; simp [applyAtNik, lookupByNik]
  | cons p ps ih =>
    intro nik
    simp only [applyAtNik, lookupByNik]
    cases happ : applyAtNik now phone ps nik with
    | some r =>
      have hne : lookupByNik ps nik ≠ none := fun hl => by
        rw [(ih nik).mpr hl] at happ; cases happ
      cases hlook : lookupByNik ps nik with
      | none => exact absurd hlook hne
      | some q => simp
    | none =>
      rw [(ih nik).mp happ]
      cases hn : hasNik p nik <;> simp [hn]

theorem applyAtNik_lookup (now : String) (phone : List Char) :
    ∀ (ps : List PatientResource) (nik : String) (ps' : List PatientResource) (ch : Bool),
      applyAtNik now phone ps nik = some (ps', ch) →
      ∃ q, lookupByNik ps' nik = some q ∧ mobileValue q = some phone := by
  intro ps
  induction ps with
  | nil => intro nik ps' ch h; simp [applyAtNik] at h
  | cons p ps ih =>
    intro nik ps' ch h
    simp only [applyAtNik] at h
    cases happ : applyAtNik now phone ps nik with
    | some r =>
      rw [happ] at h
      obtain ⟨ps0', ch0⟩ := r
      simp only [Option.some.injEq, Prod.mk.injEq] at h
      obtain ⟨rfl, rfl⟩ := h
      obtain ⟨q, hq, hmv⟩ := ih nik ps0' ch0 happ
      exact ⟨q, by simp only [lookupByNik, hq], hmv⟩
    | none =>
      rw [happ] at h
      cases hn : hasNik p nik with
      | false => rw [hn] at h; simp at h
      | true =>
        rw [hn] at h
        simp only [if_true, Option.some.injEq, Prod.mk.injEq] at h
        obtain ⟨rfl, rfl⟩ := h
        refine ⟨(applyPhone now p phone).1, ?_, applyPhone_mobileValue now p phone⟩
        have hl : lookupByNik ps nik = none := (applyAtNik_none_iff now phone ps nik).mp happ
        simp only [lookupByNik, hl, applyPhone_hasNik, hn, if_true]

/-- `valid = true` implies the canonical value is present. -/
theorem normalise_valid_canonical (fmt : PhoneFormat) (raw : List Char)
    (h : (normalise fmt raw).valid = true) :
    ∃ c, (normalise fmt raw).canonical = some c := by
  obtain ⟨t, -, -, -, hcan⟩ := normalise_valid_struct fmt raw h
  exact ⟨_, hcan⟩

/-- A row that normalises validly and whose NIK resolves takes the
`applyPhone` branch of the loop body. -/
theorem step_patients_good (fmt : PhoneFormat) (now : String) (st : RunState) (row : SheetRow)
    (c : List Char) (ps' : List PatientResource) (ch : Bool)
    (hc : (normalise fmt row.rawPhone).canonical = some c)
    (hval : (normalise fmt row.rawPhone).valid = true)
    (happ : applyAtNik now c st.patients row.nik = some (ps', ch)) :
    (step fmt now st row).patients = ps' := by
  simp only [step, hc, hval, Bool.true_eq_false, if_false, happ]

theorem foldl_step_final (fmt : PhoneFormat) (now : String) (nik0 : String) :
    ∀ (rows : List SheetRow) (st : RunState),
      (∀ r ∈ rows, r.nik = nik0 ∧ (normalise fmt r.rawPhone).valid = true) →
      lookupByNik st.patients nik0 ≠ none →
      ∀ hne : rows ≠ [],
        (lookupByNik ((rows.foldl (step fmt now) st).patients) nik0).bind mobileValue
          = (normalise fmt (rows.getLast hne).rawPhone).canonical := by
  intro rows
  induction rows with
  | nil => intro st _ _ hne; exact absurd rfl hne
  | cons r rs ih =>
    intro st hgood hlook hne
    obtain ⟨hnik, hval⟩ := hgood r (List.mem_cons_self r rs)
    obtain ⟨c, hc⟩ := normalise_valid_canonical fmt r.rawPhone hval
    have happne : applyAtNik now c st.patients r.nik ≠ none := by
      intro hcontra
      rw [applyAtNik_none_iff, hnik] at hcontra
      exact hlook hcontra
    obtain ⟨⟨ps', ch⟩, happ⟩ := Option.ne_none_iff_exists'.mp happne
    have hstep : (step fmt now st r).patients = ps' :=
      step_patients_good fmt now st r c ps' ch hc hval happ
    obtain ⟨q, hq, hmv⟩ := applyAtNik_lookup now c st.patients r.nik ps' ch happ
    rw [hnik] at hq
    cases rs with
    | nil =>
      simp only [List.foldl_cons, List.foldl_nil]
      rw [hstep, hq, Option.some_bind, hmv, List.getLast_singleton, hc]
    | cons r2 rs2 =>
      have hne2 : r2 :: rs2 ≠ [] := by simp
      simp only [List.foldl_cons]
      rw [List.getLast_cons hne2]
      refine ih (step fmt now st r) (fun x hx => hgood x (List.mem_cons_of_mem r hx)) ?_ hne2
      rw [hstep, hq]
      simp

/-- In a list sorted by the row order, every element is `rowLE` the last
element. -/
theorem sorted_rowLE_getLast :
    ∀ (l : List SheetRow) (hne : l ≠ []), List.Sorted rowLE l →
      ∀ x ∈ l, rowLE x (l.getLast hne) := by
  intro l
  induction l with
  | nil => intro hne; exact absurd rfl hne
  | cons a t ih =>
    intro hne hs x hx
    cases t with
    | nil =>
      obtain rfl : x = a := by simpa using hx
      exact le_refl _
    | cons b t2 =>
      rw [List.getLast_cons (by simp : b :: t2 ≠ [])]
      rcases List.mem_cons.mp hx with rfl | hx2
      · exact (List.sorted_cons.mp hs).1 _ (List.getLast_mem (by simp))
      · exact ih (by simp) (List.sorted_cons.mp hs).2 x hx2

/-- Core of C3: with all rows for one NIK, all valid, and `rmax` the unique
row with the strictly latest parsed date, the run leaves `rmax`'s canonical
value as the stored number. -/
theorem latest_date_wins_aux (fmt : PhoneFormat) (now : String)
    (patients : List PatientResource) (rows : List SheetRow) (nik0 : String) (rmax : SheetRow)
    (hnik : ∀ r ∈ rows, r.nik = nik0)
    (hval : ∀ r ∈ rows, (normalise fmt r.rawPhone).valid = true)
    (hmem : rmax ∈ rows)
    (hmax : ∀ r ∈ rows, r ≠ rmax →
      parseDate r.lastUpdatedDate < parseDate rmax.lastUpdatedDate)
    (hfound : lookupByNik patients nik0 ≠ none) :
    (lookupByNik (runService fmt now patients rows).patients nik0).bind mobileValue
      = (normalise fmt rmax.rawPhone).canonical := by
  have hperm : List.Perm (sortRows rows) rows := List.perm_insertionSort rowLE rows
  have hmem' : rmax ∈ sortRows rows := hperm.mem_iff.mpr hmem
  have hne : sortRows rows ≠ [] := List.ne_nil_of_mem hmem'
  have hsorted : List.Sorted rowLE (sortRows rows) := List.sorted_insertionSort rowLE rows
  have hlast : (sortRows rows).getLast hne = rmax := by
    have h1 : rowLE rmax ((sortRows rows).getLast hne) :=
      sorted_rowLE_getLast (sortRows rows) hne hsorted rmax hmem'
    have h2 : (sortRows rows).getLast hne ∈ rows := hperm.mem_iff.mp (List.getLast_mem hne)
    by_contra hneq
    have hlt := hmax _ h2 hneq
    simp only [rowLE] at h1
    omega
  have hfinal := foldl_step_final fmt now nik0 (sortRows rows) ⟨patients, initStats⟩
    (fun r hr => ⟨hnik r (hperm.mem_iff.mp hr), hval r (hperm.mem_iff.mp hr)⟩) hfound hne
  rw [hlast] at hfinal
  exact hfinal

/-- C3: for rows sharing one identifier with pairwise distinct parsable
dates, all normalising validly and resolving to an existing patient, the
final stored phone equals the canonical value of the latest-dated row — and
the result is the same for every permutation of the input rows. -/
theorem C3_latest_date_wins (fmt : PhoneFormat) (now : String)
    (patients : List PatientResource) (rows : List SheetRow) (nik0 : String) (rmax : SheetRow)
    (hnik : ∀ r ∈ rows, r.nik = nik0)
    (hval : ∀ r ∈ rows, (normalise fmt r.rawPhone).valid = true)
    (_hparse : ∀ r ∈ rows, parseDateOpt r.lastUpdatedDate ≠ none)
    (_hdistinct : rows.Pairwise
      (fun a b => parseDate a.lastUpdatedDate ≠ parseDate b.lastUpdatedDate))
    (hmem : rmax ∈ rows)
    (hmax : ∀ r ∈ rows, r ≠ rmax →
      parseDate r.lastUpdatedDate < parseDate rmax.lastUpdatedDate)
    (hfound : lookupByNik patients nik0 ≠ none) :
    (lookupByNik (runService fmt now patients rows).patients nik0).bind mobileValue
      = (normalise fmt rmax.rawPhone).canonical
    ∧ ∀ rows', List.Perm rows' rows →
      (lookupByNik (runService fmt now patients rows').patients nik0).bind mobileValue
        = (normalise fmt rmax.rawPhone).canonical := by
  refine ⟨latest_date_wins_aux fmt now patients rows nik0 rmax hnik hval hmem hmax hfound,
    fun rows' hp => latest_date_wins_aux fmt now patients rows' nik0 rmax
      (fun r hr => hnik r (hp.mem_iff.mp hr))
      (fun r hr => hval r (hp.mem_iff.mp hr))
      (hp.mem_iff.mpr hmem)
      (fun r hr => hmax r (hp.mem_iff.mp hr))
      hfound⟩

/-- C3 witness: with the newer-dated row listed first, the run still stores
that row's canonical value. -/
theorem C3_witness :
    (lookupByNik (runService PhoneFormat.e164 "ts0" [c3Patient]
        [c3RowNew, c3RowOld]).patients "3171044203920001").bind mobileValue
      = (normalise PhoneFormat.e164 c3RowNew.rawPhone).canonical :=
  (C3_latest_date_wins PhoneFormat.e164 "ts0" [c3Patient] [c3RowNew, c3RowOld]
    "3171044203920001" c3RowNew
    (by decide) (by decide) (by decide) (by decide) (by decide) (by decide) (by decide)).1

/-! ## Unparsable dates (C6) -/

/-- C6 counterexample: a row with an unparsable date does NOT sort before
every row with a parsable date: its key is `0` (the 1970 epoch), so the
parsable pre-1970 date `01-01-1960` sorts before it. -/
theorem C6_counterexample :
    parseDateOpt c6BadRow.lastUpdatedDate = none ∧
    parseDateOpt c6OldRow.lastUpdatedDate ≠ none ∧
    sortRows [c6BadRow, c6OldRow] = [c6OldRow, c6BadRow] := by
  refine ⟨by decide, by decide, by decide⟩

/-- C6 (amended): a row whose date fails to parse gets sort key `0` (the
epoch 1970-01-01) — so it sorts strictly before every row whose parsed date
is positive (after the epoch), though not before pre-1970 dates — and it is
still processed, every input row contributing exactly one to `totalRows`. -/
theorem C6_unparsable_oldest :
    (∀ d : List Char, parseDateOpt d = none → parseDate d = 0) ∧
    (∀ a b : SheetRow, parseDateOpt a.lastUpdatedDate = none →
      0 < parseDate b.lastUpdatedDate → rowLE a b ∧ ¬ rowLE b a) ∧
    (∀ (fmt : PhoneFormat) (now : String) (patients : List PatientResource)
        (rows : List SheetRow),
      (runService fmt now patients rows).stats.totalRows = rows.length) := by
  have hzero : ∀ d : List Char, parseDateOpt d = none → parseDate d = 0 := by
    intro d h
    unfold parseDate
    rw [h]
    rfl
  refine ⟨hzero, ?_, ?_⟩
  · intro a b ha hb
    have ha0 := hzero _ ha
    constructor
    · simp only [rowLE, ha0]
      exact le_of_lt hb
    · simp only [rowLE, ha0, not_le]
      exact hb
  · intro fmt now patients rows
    unfold runService
    rw [foldl_step_totalRows]
    simp only [initStats, Nat.zero_add]
    exact (List.perm_insertionSort rowLE rows).length_eq

/-- C6 witness: the amended statement at concrete rows — the malformed date
keys to `0`, sorts strictly before a 2020-dated row, and a two-row run counts
two rows. -/
theorem C6_witness :
    parseDate c6BadRow.lastUpdatedDate = 0 ∧
    (rowLE c6BadRow c3RowNew ∧ ¬ rowLE c3RowNew c6BadRow) ∧
    (runService PhoneFormat.e164 "ts0" [] [c6BadRow, c3RowNew]).stats.totalRows = 2 :=
  ⟨C6_unparsable_oldest.1 c6BadRow.lastUpdatedDate (by decide),
   C6_unparsable_oldest.2.1 c6BadRow c3RowNew (by decide) (by decide),
   C6_unparsable_oldest.2.2 PhoneFormat.e164 "ts0" [] [c6BadRow, c3RowNew]⟩

end WhatsappSync
